import Mathlib

/-!
Verification of the markdown slide-editor core of the dashboard repository:
the Text Mutation Engine, the slash-command palette, and the markdown
tokenizer/renderer pipeline.  Documents are modelled as lists of characters
(UTF-16 code units of the JS strings); `String.prototype.slice(start, end)`
becomes `sliceL`, selections are pairs of `Nat` offsets.
-/

/-- JS `T.slice(s, e)` for `0 <= s <= e` : the characters in `[s, e)`. -/
def sliceL (T : List Char) (s e : Nat) : List Char := (T.take e).drop s

/-- JS `l.split("\n").pop() || ""` : the text after the last line break. -/
def lastLineOf (l : List Char) : List Char :=
  (l.reverse.takeWhile (fun c => c ≠ '\n')).reverse

/-- JS `l.lastIndexOf("\n") + 1` : offset of the start of the last line. -/
def lineStartIdx (l : List Char) : Nat := l.length - (lastLineOf l).length

/-- First index at which `pat` occurs as a contiguous sublist (JS
`String.prototype.indexOf`); returns the list length when absent. -/
def indexOfSub (pat : List Char) : List Char → Nat
  | [] => 0
  | c :: rest => if pat.isPrefixOf (c :: rest) then 0 else indexOfSub pat rest + 1

/-- Result of a Text Mutation Engine operation: the new document plus the
selection range passed to `setSelectionRange` (collapsed cursors have
`selStart = selEnd`). -/
structure MutResult where
  doc : List Char
  selStart : Nat
  selEnd : Nat
  deriving DecidableEq, Repr

/-- `wrapSelection(before, after, placeholder)` on the live-textarea path:
replaces the selection (or the placeholder when the selection is empty) with
`before + selected + after`; the cursor is collapsed at
`start + before.length + selected.length + after.length`. -/
def wrapSelection (before after ph T : List Char) (s e : Nat) : MutResult :=
  let selected := if sliceL T s e = [] then ph else sliceL T s e
  let doc := T.take s ++ before ++ selected ++ after ++ T.drop e
  let c := s + before.length + selected.length + after.length
  ⟨doc, c, c⟩

/-- `insertAtCursor(snippet, selectAfter)` on the live-textarea path. -/
def insertAtCursor (snippet T : List Char) (s e : Nat) (selectAfter : Bool) : MutResult :=
  let doc := T.take s ++ snippet ++ T.drop e
  if selectAfter then ⟨doc, s, s + snippet.length⟩
  else ⟨doc, s + snippet.length, s + snippet.length⟩

/-- `insertBold` : `wrapSelection("**", "**", "bold text")`. -/
def insertBold (T : List Char) (s e : Nat) : MutResult :=
  wrapSelection ("**".toList) ("**".toList) ("bold text".toList) T s e

/-- `insertHeading(level)` on the live-textarea path: the `"#".repeat(level) + " "`
marker goes to the start of the line containing the selection start; the
selection (defaulting to `"Heading"` when empty) is spliced in at the cursor. -/
def insertHeading (level : Nat) (T : List Char) (s e : Nat) : MutResult :=
  let beforeSelection := T.take s
  let selectedText := if sliceL T s e = [] then "Heading".toList else sliceL T s e
  let lineStart := lineStartIdx beforeSelection
  let linePrefix := T.take lineStart
  let lineRemainderBefore := sliceL T lineStart s
  let headingPrefix := List.replicate level '#' ++ [' ']
  let doc := linePrefix ++ headingPrefix ++ lineRemainderBefore ++ selectedText ++ T.drop e
  let c := lineStart + headingPrefix.length + lineRemainderBefore.length + selectedText.length
  ⟨doc, c, c⟩

/-- `insertCodeBlock` on the live-textarea path. -/
def insertCodeBlock (T : List Char) (s e : Nat) : MutResult :=
  let selected := if sliceL T s e = [] then "code".toList else sliceL T s e
  let snippet := "\n\n```\n".toList ++ selected ++ "\n```\n\n".toList
  let doc := T.take s ++ snippet ++ T.drop e
  ⟨doc, s + snippet.length, s + snippet.length⟩

/-- `insertList(ordered)` on the live-textarea path: keeps the document up to
the start of the cursor's line, then `"\n" + marker + text-from-cursor`. -/
def insertList (ordered : Bool) (T : List Char) (s : Nat) : MutResult :=
  let beforeSelection := T.take s
  let lineStart := lineStartIdx beforeSelection
  let pfx := if ordered then "1. ".toList else "- ".toList
  let snippet := '\n' :: (pfx ++ T.drop s)
  let doc := T.take lineStart ++ snippet
  ⟨doc, lineStart + snippet.length, lineStart + snippet.length⟩

/-- `insertQuote` on the live-textarea path. -/
def insertQuote (T : List Char) (s e : Nat) : MutResult :=
  let selected := if sliceL T s e = [] then "Quote".toList else sliceL T s e
  let snippet := "\n> ".toList ++ selected ++ ['\n']
  let doc := T.take s ++ snippet ++ T.drop e
  ⟨doc, s + snippet.length, s + snippet.length⟩

/-- `insertLink` on the live-textarea path: the selection range delivered to
the textarea is `(cursorPos, cursorPos + "https://example.com".length)` with
`cursorPos = start + snippet.indexOf("(https") + 1`. -/
def insertLink (T : List Char) (s e : Nat) : MutResult :=
  let selected := if sliceL T s e = [] then "link text".toList else sliceL T s e
  let snippet := '[' :: (selected ++ "](https://example.com)".toList)
  let doc := T.take s ++ snippet ++ T.drop e
  let c := s + indexOfSub ("(https".toList) snippet + 1
  ⟨doc, c, c + ("https://example.com".toList).length⟩

/-- `removeSlashCommand` : when the last line before the cursor starts with
`/`, delete from that line's start through the cursor and collapse the
cursor at the line start; otherwise leave everything unchanged. -/
def removeSlashCommand (T : List Char) (s : Nat) : MutResult :=
  let textBeforeCursor := T.take s
  let lastLn := lastLineOf textBeforeCursor
  if lastLn.head? = some '/' then
    let lineStart := lineStartIdx textBeforeCursor
    ⟨T.take lineStart ++ T.drop s, lineStart, lineStart⟩
  else ⟨T, s, s⟩

/-- `wrapSelection` fallback branch when `textareaRef.current` is null:
appends `before + placeholder + after` to the document. -/
def wrapSelectionNoWidget (before after ph T : List Char) : List Char :=
  T ++ before ++ ph ++ after

/-- `insertAtCursor` fallback branch: appends the snippet. -/
def insertAtCursorNoWidget (snippet T : List Char) : List Char := T ++ snippet

/-- `insertHeading` fallback branch: the template literal
`"#".repeat(level) + " " + localValue` prepends the marker. -/
def insertHeadingNoWidget (level : Nat) (T : List Char) : List Char :=
  List.replicate level '#' ++ ' ' :: T

/-- `insertList` fallback branch: replaces the document with a fixed item. -/
def insertListNoWidget (ordered : Bool) (T : List Char) : List Char :=
  if ordered then "\n1. Item\n".toList else "\n- Item\n".toList

/-- `insertQuote` fallback branch: replaces the document. -/
def insertQuoteNoWidget (T : List Char) : List Char := "\n> Quote\n".toList

/-- `insertCodeBlock` fallback branch: replaces the document. -/
def insertCodeBlockNoWidget (T : List Char) : List Char :=
  "\n\n```\ncode\n```\n\n".toList

/-- `insertLink` fallback branch: `insertAtCursor` of the full link snippet. -/
def insertLinkNoWidget (T : List Char) : List Char :=
  insertAtCursorNoWidget ("[link text](https://example.com)".toList) T

/-- The slash-menu activation test of the `keyup` effect:
`lastLine === "/" || (lastLine.startsWith("/") && !lastLine.includes(" ")
&& !lastLine.endsWith(" "))` on the text of the current line up to the
cursor. -/
def slashActiveB (lastLn : List Char) : Bool :=
  (lastLn == ['/']) ||
    ((lastLn.head? == some '/') && !(lastLn.contains ' ') &&
      !(lastLn.getLast? == some ' '))

/-- The slash-menu state after a keystroke with document `T` and cursor `c` :
`some q` when the menu is shown with `slashQuery = q` (the last line with its
leading `/` removed), `none` when the menu is hidden. -/
def slashStateOf (T : List Char) (c : Nat) : Option (List Char) :=
  let lastLn := lastLineOf (T.take c)
  if slashActiveB lastLn then some (lastLn.drop 1) else none

/-- A slash command as the palette filter sees it: the three fields named in
the Fuse.js keys (`title`, `description`, `searchTerms`).  The icon and the
dispatch closure of the source records play no part in filtering and are not
modelled. -/
structure SlashCommandModel where
  title : List Char
  description : List Char
  searchTerms : List (List Char)
  deriving DecidableEq, Repr

/-- The static 13-entry command registry, in source order. -/
def slashCommands : List SlashCommandModel :=
  [ ⟨ "Heading 1".toList, "Big section heading".toList,
      ["h1".toList, "heading".toList, "title".toList, "big".toList]⟩,
    ⟨ "Heading 2".toList, "Medium section heading".toList,
      ["h2".toList, "heading".toList, "subtitle".toList, "medium".toList]⟩,
    ⟨ "Heading 3".toList, "Small section heading".toList,
      ["h3".toList, "heading".toList, "subtitle".toList, "small".toList]⟩,
    ⟨ "Bold".toList, "Make text bold".toList,
      ["bold".toList, "strong".toList, "b".toList]⟩,
    ⟨ "Italic".toList, "Make text italic".toList,
      ["italic".toList, "emphasis".toList, "i".toList]⟩,
    ⟨ "Code Block".toList, "Insert a code block".toList,
      ["code".toList, "block".toList, "snippet".toList]⟩,
    ⟨ "Inline Code".toList, "Insert inline code".toList,
      ["code".toList, "inline".toList, "backtick".toList]⟩,
    ⟨ "Bullet List".toList, "Create a bullet list".toList,
      ["list".toList, "bullet".toList, "unordered".toList]⟩,
    ⟨ "Numbered List".toList, "Create a numbered list".toList,
      ["list".toList, "numbered".toList, "ordered".toList, "number".toList]⟩,
    ⟨ "Quote".toList, "Insert a blockquote".toList,
      ["quote".toList, "blockquote".toList, "citation".toList]⟩,
    ⟨ "Link".toList, "Insert a link".toList,
      ["link".toList, "url".toList, "href".toList, "anchor".toList]⟩,
    ⟨ "Image".toList, "Insert an image".toList,
      ["image".toList, "img".toList, "picture".toList, "photo".toList]⟩,
    ⟨ "Horizontal Rule".toList, "Insert a horizontal rule".toList,
      ["hr".toList, "rule".toList, "divider".toList, "separator".toList]⟩ ]

/-- `pat` occurs as a contiguous substring of `l` (JS `includes`). -/
def containsSub (pat : List Char) : List Char → Bool
  | [] => pat.isPrefixOf []
  | c :: rest => pat.isPrefixOf (c :: rest) || containsSub pat rest

/-- Modelled from the spec: the Fuse.js fuzzy search over the registry
(keys `title`, `description`, `searchTerms`) is not part of this repository;
the spec's §4.2/§9 contract — substring-style matching against the three
keyed fields, exact ranking not a correctness requirement — is modelled as
plain substring matching over those fields. -/
def matchesQuery (q : List Char) (cmd : SlashCommandModel) : Bool :=
  containsSub q cmd.title || containsSub q cmd.description ||
    cmd.searchTerms.any (fun t => containsSub q t)

/-- `filteredSlashCommands` : an empty query returns the whole registry in
registry order; otherwise the registry is filtered by the (spec-modelled)
fuzzy match. -/
def filteredSlashCommands (q : List Char) : List SlashCommandModel :=
  if q = [] then slashCommands else slashCommands.filter (matchesQuery q)

/-- `decodeHtmlEntities` helper: one global-regex `String.replace` pass,
replacing every non-overlapping occurrence of `pat` left to right. -/
def replaceAll (pat repl : List Char) : List Char → List Char
  | [] => []
  | c :: t =>
    if pat ≠ [] ∧ pat.isPrefixOf (c :: t) then
      repl ++ replaceAll pat repl (t.drop (pat.length - 1))
    else c :: replaceAll pat repl t
  termination_by l => l.length
  decreasing_by
  · simp only [List.length_cons, List.length_drop]
    omega
  · simp only [List.length_cons]
    omega

/-- `decodeHtmlEntities` : sequentially decodes the five HTML entities
back to literal characters; empty (falsy) input yields the empty string. -/
def decodeHtmlEntities (input : List Char) : List Char :=
  if input = [] then []
  else
    replaceAll ("&#39;".toList) ("\x27".toList)
      (replaceAll ("&quot;".toList) ("\"".toList)
        (replaceAll ("&amp;".toList) ("&".toList)
          (replaceAll ("&gt;".toList) (">".toList)
            (replaceAll ("&lt;".toList) ("<".toList) input))))

/-- `HtmlAllowedTags` : the inline raw-HTML tag allow-list. -/
def HtmlAllowedTags : List (List Char) :=
  [ "span".toList, "img".toList, "sup".toList, "sub".toList, "br".toList]

/-- The `ALLOWED_ATTR` list passed to both sanitizer calls. -/
def HtmlAllowedAttrs : List (List Char) :=
  [ "style".toList, "src".toList, "alt".toList, "width".toList,
    "height".toList, "title".toList]

/-- `ALLOWED_TAGS` of the block raw-HTML branch: `["p", "div",
...HtmlAllowedTags]`. -/
def BlockAllowedTags : List (List Char) :=
  "p".toList :: "div".toList :: HtmlAllowedTags

/-- Inline markdown tokens, as the `renderInline` switch consumes them
(the `marked` token shapes restricted to the fields the renderer reads).
`text` carries `token.tokens` as an `Option` because the renderer branches
on its JS truthiness; `unknown` carries `token.raw ?? null` of any
unhandled inline token kind. -/
inductive InlineToken where
  | strong (toks : List InlineToken)
  | em (toks : List InlineToken)
  | codespan (text : List Char)
  | link (href : List Char) (toks : List InlineToken)
  | image (href : List Char) (text : List Char)
  | br
  | del (toks : List InlineToken)
  | html (text : List Char)
  | text (sub : Option (List InlineToken)) (txt : List Char)
  | unknown (raw : Option (List Char))
  deriving Repr

/-- Block-level markdown tokens as the `renderBlocks` switch consumes them.
List items are `(item.tokens, item.text)` pairs; table cells are inline
token lists. -/
inductive BlockToken where
  | heading (depth : Nat) (toks : List InlineToken)
  | paragraph (toks : List InlineToken)
  | text (toks : List InlineToken)
  | list (ordered : Bool) (items : List (List InlineToken × List Char))
  | blockquote (toks : List InlineToken)
  | code (lang : List Char) (text : List Char)
  | hr
  | html (text : List Char)
  | table (header : List (List InlineToken)) (rows : List (List (List InlineToken)))
  | unknown
  deriving Repr

/-- The renderer's output tree (React element structure with the class
names and keys dropped).  `sanitizedHtml inline tags attrs text` stands for
`dangerouslySetInnerHTML` of `DOMPurify.sanitize(text, {ALLOWED_TAGS: tags,
ALLOWED_ATTR: attrs})` — the sanitizer itself is external to the repository
and is modelled at its interface, as a node recording exactly the
allow-lists it was restricted to.  `rawHtml` is the fail-open branch taken
when `typeof window === "undefined"` (no DOM sanitizer available).
`noneNode` is a React `null` child (renders nothing). -/
inductive Output where
  | strong (children : List Output)
  | em (children : List Output)
  | codeInline (text : List Char)
  | anchor (href : List Char) (children : List Output)
  | img (src : List Char) (alt : List Char)
  | brOut
  | delOut (children : List Output)
  | sanitizedHtml (inline : Bool) (tags attrs : List (List Char)) (text : List Char)
  | rawHtml (inline : Bool) (text : List Char)
  | span (children : List Output)
  | textNode (text : List Char)
  | rawText (text : List Char)
  | noneNode
  | headingOut (depth : Nat) (children : List Output)
  | para (children : List Output)
  | listOut (ordered : Bool) (items : List Output)
  | liOut (children : List Output) (fallback : Option (List Char))
  | blockquoteOut (children : List Output)
  | codeBlock (lang : List Char) (dark : Bool) (text : List Char)
  | hrOut
  | cellOut (children : List Output)
  | rowOut (cells : List Output)
  | tableOut (header : List Output) (rows : List Output)
  | divOut (children : List Output)
  deriving Repr

mutual
/-- One case of the `renderInline` switch.  `w` is whether a DOM sanitizer
is available (`typeof window !== "undefined"`). -/
def renderInlineTok (w : Bool) : InlineToken → Output
  | .strong ts => .strong (renderInlineList w ts)
  | .em ts => .em (renderInlineList w ts)
  | .codespan text => .codeInline (decodeHtmlEntities text)
  | .link href ts =>
    .anchor (if href = [] then "#".toList else href) (renderInlineList w ts)
  | .image href text => if href = [] then .noneNode else .img href text
  | .br => .brOut
  | .del ts => .delOut (renderInlineList w ts)
  | .html text =>
    if !(HtmlAllowedTags.any (fun tag => containsSub ('<' :: tag) text)) then
      .noneNode
    else if w then .sanitizedHtml true HtmlAllowedTags HtmlAllowedAttrs text
    else .rawHtml true text
  | .text sub txt =>
    match sub with
    | some ts => .span (renderInlineList w ts)
    | none => .span [.textNode (decodeHtmlEntities txt)]
  | .unknown raw =>
    match raw with
    | some r => .rawText r
    | none => .noneNode

/-- `renderInline` over a token array: the JS `Array.prototype.map`. -/
def renderInlineList (w : Bool) : List InlineToken → List Output
  | [] => []
  | t :: ts => renderInlineTok w t :: renderInlineList w ts
end

/-- One case of the `renderBlocks` switch.  `theme` is the ambient
next-themes value; `token.lang || "text"` and the `oneDark`/`oneLight`
style choice are reflected in the `codeBlock` node. -/
def renderBlockTok (w : Bool) (theme : Option (List Char)) : BlockToken → Output
  | .heading depth toks => .headingOut depth (renderInlineList w toks)
  | .paragraph toks => .para (renderInlineList w toks)
  | .text toks => .para (renderInlineList w toks)
  | .list ordered items =>
    .listOut ordered (items.map (fun it =>
      .liOut (renderInlineList w it.1)
        (if it.1.length = 0 then some it.2 else none)))
  | .blockquote toks => .blockquoteOut (renderInlineList w toks)
  | .code lang text =>
    .codeBlock (if lang = [] then "text".toList else lang)
      (theme == some ("dark".toList)) (decodeHtmlEntities text)
  | .hr => .hrOut
  | .html text =>
    if w then .sanitizedHtml false BlockAllowedTags HtmlAllowedAttrs text
    else .rawHtml false text
  | .table header rows =>
    .tableOut (header.map (fun cell => .cellOut (renderInlineList w cell)))
      (rows.map (fun row =>
        .rowOut (row.map (fun cell => .cellOut (renderInlineList w cell)))))
  | .unknown => .noneNode

/-- `renderBlocks` : map of `renderBlockTok` over the block token list. -/
def renderBlocks (w : Bool) (theme : Option (List Char)) (toks : List BlockToken) :
    List Output :=
  toks.map (renderBlockTok w theme)

/-- `renderMarkdownTokens(tokens, theme)` : the wrapping preview `div`. -/
def renderMarkdownTokens (tokens : List BlockToken) (theme : Option (List Char))
    (w : Bool) : Output :=
  .divOut (renderBlocks w theme tokens)

/-- The component state of the editor (one field per `useState`, plus the
controlled `localValue` and the ambient theme).  Only `localValue` and
`theme` feed the preview pipeline. -/
structure EditorState where
  localValue : List Char
  theme : Option (List Char)
  isPickerOpen : Bool
  isCodeDialogOpen : Bool
  codeInput : List Char
  codeLanguage : List Char
  externalUrl : List Char
  imgWidth : List Char
  imgHeight : List Char
  imgAlt : List Char
  activeView : List Char
  isToolbarHovered : Bool
  selectedColor : List Char
  showSlashMenu : Bool
  slashQuery : List Char
  slashPosition : Nat × Nat
  showFloatingToolbar : Bool
  floatingToolbarPosition : Nat × Nat

/-- `parsedTokens` : the `marked.lexer` call on `localValue`, substituting
the fixed italic placeholder for an empty document.  The lexer itself is an
external library configured once with fixed options; per the spec's §9
design note it is passed as an explicit function argument. -/
def parsedTokens (lexer : List Char → List BlockToken) (localValue : List Char) :
    List BlockToken :=
  lexer (if localValue.length ≠ 0 then localValue
         else "*Start typing to see your preview...*".toList)

/-- `renderedMarkdown` : the preview as a function of the editor state. -/
def renderedMarkdown (lexer : List Char → List BlockToken) (st : EditorState)
    (w : Bool) : Output :=
  renderMarkdownTokens (parsedTokens lexer st.localValue) st.theme w

mutual
/-- Sanitization health of one output node: no fail-open `rawHtml` node, and
every sanitizer application is restricted to exactly the editor's
allow-lists — which in particular exclude `script`, `iframe` and
`onerror`. -/
def htmlSafe : Output → Bool
  | .sanitizedHtml inline tags attrs _ =>
    (if inline then tags == HtmlAllowedTags else tags == BlockAllowedTags) &&
      attrs == HtmlAllowedAttrs &&
      !(tags.contains ("script".toList)) && !(tags.contains ("iframe".toList)) &&
      !(attrs.contains ("onerror".toList))
  | .rawHtml _ _ => false
  | .strong cs => htmlSafeList cs
  | .em cs => htmlSafeList cs
  | .anchor _ cs => htmlSafeList cs
  | .delOut cs => htmlSafeList cs
  | .span cs => htmlSafeList cs
  | .headingOut _ cs => htmlSafeList cs
  | .para cs => htmlSafeList cs
  | .listOut _ cs => htmlSafeList cs
  | .liOut cs _ => htmlSafeList cs
  | .blockquoteOut cs => htmlSafeList cs
  | .cellOut cs => htmlSafeList cs
  | .rowOut cs => htmlSafeList cs
  | .tableOut h r => htmlSafeList h && htmlSafeList r
  | .divOut cs => htmlSafeList cs
  | _ => true

/-- `htmlSafe` over every node of a child list. -/
def htmlSafeList : List Output → Bool
  | [] => true
  | o :: os => htmlSafe o && htmlSafeList os
end

lemma lineStartIdx_le (l : List Char) : lineStartIdx l ≤ l.length :=
  Nat.sub_le _ _

lemma lineStartIdx_take_le {T : List Char} (s : Nat) :
    lineStartIdx (T.take s) ≤ min s T.length := by
  have h := lineStartIdx_le (T.take s)
  simpa [List.length_take] using h

lemma indexOfSub_le (pat : List Char) :
    ∀ (l : List Char) (j : Nat), pat.isPrefixOf (l.drop j) = true → indexOfSub pat l ≤ j := by
  intro l
  induction l with
  | nil => intro j h; simp [indexOfSub]
  | cons c rest ih =>
    intro j h
    cases j with
    | zero =>
      rw [List.drop_zero] at h
      simp [indexOfSub, h]
    | succ j =>
      by_cases hp : pat.isPrefixOf (c :: rest) = true
      · simp [indexOfSub, hp]
      · simp only [indexOfSub, hp, if_false]
        have h' : pat.isPrefixOf (rest.drop j) = true := by
          simpa [List.drop_succ_cons] using h
        exact Nat.succ_le_succ (ih j h')

lemma linkIdx_le (sel : List Char) :
    indexOfSub ("(https".toList) ('[' :: (sel ++ "](https://example.com)".toList))
      ≤ sel.length + 2 := by
  apply indexOfSub_le
  have hstep : ('[' :: (sel ++ "](https://example.com)".toList)).drop (sel.length + 2)
      = "(https://example.com)".toList := by
    show (('[' :: sel) ++ "](https://example.com)".toList).drop (sel.length + 2) = _
    rw [show sel.length + 2 = ('[' :: sel).length + 1 by simp]
    rw [List.drop_append]
    rfl
  rw [hstep]
  decide

lemma sliceL_append_middle (P C R : List Char) :
    sliceL (P ++ C ++ R) P.length (P.length + C.length) = C := by
  unfold sliceL
  rw [show P.length + C.length = (P ++ C).length by simp]
  rw [List.take_left]
  rw [List.drop_left]

lemma renderInlineList_eq_map (w : Bool) (ts : List InlineToken) :
    renderInlineList w ts = ts.map (renderInlineTok w) := by
  induction ts with
  | nil => rfl
  | cons t ts ih => simp [renderInlineList, ih]

lemma htmlSafeList_eq_all (os : List Output) : htmlSafeList os = os.all htmlSafe := by
  induction os with
  | nil => rfl
  | cons o os ih => simp [htmlSafeList, ih, List.all_cons]

lemma htmlSafeList_map {α : Type} (f : α → Output) (l : List α)
    (h : ∀ x ∈ l, htmlSafe (f x) = true) : htmlSafeList (l.map f) = true := by
  rw [htmlSafeList_eq_all]
  refine List.all_eq_true.mpr ?_
  intro o ho
  rcases List.mem_map.mp ho with ⟨x, hx, rfl⟩
  exact h x hx

lemma inlineSafeAux :
    ∀ (n : Nat) (t : InlineToken), sizeOf t ≤ n →
      htmlSafe (renderInlineTok true t) = true := by
  intro n
  induction n using Nat.strong_induction_on with
  | _ n ih =>
    intro t hle
    have hrec : ∀ (ts : List InlineToken), sizeOf ts ≤ n →
        htmlSafeList (renderInlineList true ts) = true := by
      intro ts hts
      rw [renderInlineList_eq_map]
      apply htmlSafeList_map
      intro x hx
      have hlt : sizeOf x < sizeOf ts := List.sizeOf_lt_of_mem hx
      exact ih (sizeOf x) (Nat.lt_of_lt_of_le hlt hts) x (Nat.le_refl _)
    cases t with
    | strong ts =>
      have := hrec ts (by simp at hle; omega)
      simpa [renderInlineTok, htmlSafe] using this
    | em ts =>
      have := hrec ts (by simp at hle; omega)
      simpa [renderInlineTok, htmlSafe] using this
    | codespan text => simp [renderInlineTok, htmlSafe]
    | link href ts =>
      have := hrec ts (by simp at hle; omega)
      simpa [renderInlineTok, htmlSafe] using this
    | image href text =>
      by_cases h : href = [] <;> simp [renderInlineTok, h, htmlSafe]
    | br => simp [renderInlineTok, htmlSafe]
    | del ts =>
      have := hrec ts (by simp at hle; omega)
      simpa [renderInlineTok, htmlSafe] using this
    | html text =>
      by_cases h : (HtmlAllowedTags.any (fun tag => containsSub ('<' :: tag) text)) = true
      · simp only [renderInlineTok, h]
        simp [htmlSafe, HtmlAllowedTags, HtmlAllowedAttrs]
      · simp only [renderInlineTok, h]
        simp [htmlSafe]
    | text sub txt =>
      cases sub with
      | some ts =>
        have := hrec ts (by simp at hle; omega)
        simpa [renderInlineTok, htmlSafe] using this
      | none => simp [renderInlineTok, htmlSafe, htmlSafeList]
    | unknown raw =>
      cases raw with
      | some r => simp [renderInlineTok, htmlSafe]
      | none => simp [renderInlineTok, htmlSafe]

lemma htmlSafe_renderInlineTok (t : InlineToken) :
    htmlSafe (renderInlineTok true t) = true :=
  inlineSafeAux (sizeOf t) t (Nat.le_refl _)

lemma htmlSafeList_renderInlineList (ts : List InlineToken) :
    htmlSafeList (renderInlineList true ts) = true := by
  rw [renderInlineList_eq_map]
  exact htmlSafeList_map _ _ (fun x _ => htmlSafe_renderInlineTok x)

lemma htmlSafe_renderBlockTok (theme : Option (List Char)) (b : BlockToken) :
    htmlSafe (renderBlockTok true theme b) = true := by
  cases b with
  | heading depth toks =>
    simpa [renderBlockTok, htmlSafe] using htmlSafeList_renderInlineList toks
  | paragraph toks =>
    simpa [renderBlockTok, htmlSafe] using htmlSafeList_renderInlineList toks
  | text toks =>
    simpa [renderBlockTok, htmlSafe] using htmlSafeList_renderInlineList toks
  | list ordered items =>
    simp only [renderBlockTok, htmlSafe]
    apply htmlSafeList_map
    intro it _
    simpa [htmlSafe] using htmlSafeList_renderInlineList it.1
  | blockquote toks =>
    simpa [renderBlockTok, htmlSafe] using htmlSafeList_renderInlineList toks
  | code lang text => simp [renderBlockTok, htmlSafe]
  | hr => simp [renderBlockTok, htmlSafe]
  | html text =>
    simp only [renderBlockTok, if_true]
    simp [htmlSafe, HtmlAllowedTags, HtmlAllowedAttrs, BlockAllowedTags]
  | table header rows =>
    simp only [renderBlockTok, htmlSafe]
    rw [Bool.and_eq_true]
    constructor
    · apply htmlSafeList_map
      intro cell _
      simpa [htmlSafe] using htmlSafeList_renderInlineList cell
    · apply htmlSafeList_map
      intro row _
      simp only [htmlSafe]
      apply htmlSafeList_map
      intro cell _
      simpa [htmlSafe] using htmlSafeList_renderInlineList cell
  | unknown => simp [renderBlockTok, htmlSafe]

/-- Well-formedness of a mutation result: the selection the operation asks
the textarea to apply lies within the new document. -/
def MutOk (r : MutResult) : Prop :=
  r.selStart ≤ r.selEnd ∧ r.selEnd ≤ r.doc.length

lemma wrapSelection_ok (before after ph T : List Char) {s e : Nat}
    (h1 : s ≤ e) (h2 : e ≤ T.length) : MutOk (wrapSelection before after ph T s e) := by
  refine ⟨Nat.le_refl _, ?_⟩
  simp only [wrapSelection]
  simp [List.length_append, List.length_take, List.length_drop]
  omega

lemma insertAtCursor_ok (snippet T : List Char) {s e : Nat} (selectAfter : Bool)
    (h1 : s ≤ e) (h2 : e ≤ T.length) : MutOk (insertAtCursor snippet T s e selectAfter) := by
  cases selectAfter <;>
    · refine ⟨by simp [insertAtCursor], ?_⟩
      simp only [insertAtCursor]
      simp [List.length_append, List.length_take, List.length_drop]
      omega

lemma insertHeading_ok (level : Nat) {T : List Char} {s e : Nat}
    (h1 : s ≤ e) (h2 : e ≤ T.length) : MutOk (insertHeading level T s e) := by
  have hls := lineStartIdx_take_le (T := T) s
  refine ⟨Nat.le_refl _, ?_⟩
  simp only [insertHeading]
  simp [List.length_append, List.length_take, List.length_drop, sliceL]
  omega

lemma insertList_ok (ordered : Bool) {T : List Char} {s : Nat}
    (h : s ≤ T.length) : MutOk (insertList ordered T s) := by
  have hls := lineStartIdx_take_le (T := T) s
  refine ⟨Nat.le_refl _, ?_⟩
  simp only [insertList]
  simp [List.length_append, List.length_take, List.length_drop]
  omega

lemma insertQuote_ok {T : List Char} {s e : Nat}
    (h1 : s ≤ e) (h2 : e ≤ T.length) : MutOk (insertQuote T s e) := by
  refine ⟨Nat.le_refl _, ?_⟩
  simp only [insertQuote]
  simp [List.length_append, List.length_take, List.length_drop]
  omega

lemma insertCodeBlock_ok {T : List Char} {s e : Nat}
    (h1 : s ≤ e) (h2 : e ≤ T.length) : MutOk (insertCodeBlock T s e) := by
  refine ⟨Nat.le_refl _, ?_⟩
  simp only [insertCodeBlock]
  simp [List.length_append, List.length_take, List.length_drop]
  omega

lemma insertLink_ok {T : List Char} {s e : Nat}
    (h1 : s ≤ e) (h2 : e ≤ T.length) : MutOk (insertLink T s e) := by
  refine ⟨Nat.le_add_right _ _, ?_⟩
  simp only [insertLink]
  generalize (if sliceL T s e = [] then "link text".toList else sliceL T s e) = sel
  have hidx := linkIdx_le sel
  have hurl : ("https://example.com".toList).length = 19 := rfl
  have htail : ("](https://example.com)".toList).length = 22 := rfl
  simp only [List.length_append, List.length_take, List.length_drop, List.length_cons,
    hurl, htail]
  omega

lemma removeSlashCommand_ok {T : List Char} {s : Nat}
    (h : s ≤ T.length) : MutOk (removeSlashCommand T s) := by
  have hls := lineStartIdx_take_le (T := T) s
  simp only [removeSlashCommand]
  split
  · refine ⟨Nat.le_refl _, ?_⟩
    simp [List.length_append, List.length_take, List.length_drop]
    omega
  · exact ⟨Nat.le_refl _, h⟩

/-- Claim C1: for every token tree (hence for the tokens of every Document
text) rendered in an interactive context (DOM sanitizer available), the
output never contains a fail-open unsanitized-HTML node, and both the
inline and the block raw-HTML branches pass the token text through the
sanitizer restricted to exactly the allow-lists `span, img, sup, sub, br`
(plus `p, div` for block HTML) and `style, src, alt, width, height, title`
— lists that exclude `script`, `iframe` and `onerror`. -/
theorem sanitizer_allowlist_enforced (tokens : List BlockToken) (theme : Option (List Char)) :
    htmlSafe (renderMarkdownTokens tokens theme true) = true := by
  simp only [renderMarkdownTokens, renderBlocks, htmlSafe]
  exact htmlSafeList_map _ _ (fun b _ => htmlSafe_renderBlockTok theme b)

/-- Claim C2: for every document `T` and valid selection `s ≤ e ≤ length T`,
each Text Mutation Engine operation (wrap-selection, heading insertion,
list insertion, quote insertion, link insertion, code-block insertion,
insert-at-cursor, slash-command removal) yields a new document together
with a selection range lying inside it: `selStart ≤ selEnd ≤ length (new
document)` (offsets are naturals, so `0 ≤` is automatic). -/
theorem mutation_offset_safe (T before after ph snippet : List Char)
    (level : Nat) (ordered selectAfter : Bool) (s e : Nat)
    (h1 : s ≤ e) (h2 : e ≤ T.length) :
    MutOk (wrapSelection before after ph T s e) ∧
    MutOk (insertHeading level T s e) ∧
    MutOk (insertList ordered T s) ∧
    MutOk (insertQuote T s e) ∧
    MutOk (insertLink T s e) ∧
    MutOk (insertCodeBlock T s e) ∧
    MutOk (insertAtCursor snippet T s e selectAfter) ∧
    MutOk (removeSlashCommand T s) :=
  ⟨wrapSelection_ok before after ph T h1 h2,
   insertHeading_ok level h1 h2,
   insertList_ok ordered (Nat.le_trans h1 h2),
   insertQuote_ok h1 h2,
   insertLink_ok h1 h2,
   insertCodeBlock_ok h1 h2,
   insertAtCursor_ok snippet T selectAfter h1 h2,
   removeSlashCommand_ok (Nat.le_trans h1 h2)⟩

/-- Witness for C2 at document `"ab\ncd"`, selection `(1, 3)`, with concrete
wrap pair, snippet, heading level and list/selection flags. -/
theorem mutation_offset_safe_witness :
    ((1 : Nat) ≤ 3 ∧ 3 ≤ ("ab\ncd".toList).length) ∧
    (MutOk (wrapSelection ("**".toList) ("**".toList) ("bold text".toList) ("ab\ncd".toList) 1 3) ∧
     MutOk (insertHeading 2 ("ab\ncd".toList) 1 3) ∧
     MutOk (insertList true ("ab\ncd".toList) 1) ∧
     MutOk (insertQuote ("ab\ncd".toList) 1 3) ∧
     MutOk (insertLink ("ab\ncd".toList) 1 3) ∧
     MutOk (insertCodeBlock ("ab\ncd".toList) 1 3) ∧
     MutOk (insertAtCursor ("xyz".toList) ("ab\ncd".toList) 1 3 true) ∧
     MutOk (removeSlashCommand ("ab\ncd".toList) 1)) :=
  ⟨⟨by decide, by decide⟩,
   mutation_offset_safe ("ab\ncd".toList) ("**".toList) ("**".toList)
     ("bold text".toList) ("xyz".toList) 2 true true 1 3 (by decide) (by decide)⟩

/-- Counterexample to claim C3: invoking bold on Document `"Hello "` with a
collapsed selection at offset 6 does produce `"Hello **bold text**"`, and
the placeholder occupies offsets `[8, 17)` — but the operation collapses
the selection at offset 19 (after the closing `**`), so the placeholder is
not selected for immediate overtype as the claim states. -/
theorem bold_placeholder_not_selected :
    (insertBold ("Hello ".toList) 6 6).doc = "Hello **bold text**".toList ∧
    sliceL (insertBold ("Hello ".toList) 6 6).doc 8 17 = "bold text".toList ∧
    (insertBold ("Hello ".toList) 6 6).selStart = 19 ∧
    (insertBold ("Hello ".toList) 6 6).selEnd = 19 ∧
    ¬ ((insertBold ("Hello ".toList) 6 6).selStart <
        (insertBold ("Hello ".toList) 6 6).selEnd) := by
  decide

/-- Amended claim C3: bold on `"Hello "` with a collapsed selection at
offset 6 produces `"Hello **bold text**"` and a collapsed cursor at offset
19, the end of the whole inserted wrap (the placeholder is left unselected
rather than selected for overtype). -/
theorem bold_empty_selection_result :
    (insertBold ("Hello ".toList) 6 6).doc = "Hello **bold text**".toList ∧
    (insertBold ("Hello ".toList) 6 6).selStart = 19 ∧
    (insertBold ("Hello ".toList) 6 6).selEnd = 19 ∧
    (insertBold ("Hello ".toList) 6 6).doc.length = 19 := by
  decide

/-- Counterexample to claim C4: heading level 2 on `"Notes:\nsecond line"`
with a collapsed cursor at offset 10 (inside "second line") does not give
`"Notes:\n## second line"` — the empty selection defaults to the `"Heading"`
placeholder, which is spliced in at the cursor. -/
theorem heading_insertion_not_line_reuse :
    (insertHeading 2 ("Notes:\nsecond line".toList) 10 10).doc ≠
      "Notes:\n## second line".toList ∧
    (insertHeading 2 ("Notes:\nsecond line".toList) 10 10).doc =
      "Notes:\n## secHeadingond line".toList := by
  decide

/-- Amended claim C4: heading level 2 on `"Notes:\nsecond line"` with a
collapsed cursor at offset 10 inserts `"## "` at the start of the cursor's
line and the `"Heading"` placeholder at the cursor, producing
`"Notes:\n## secHeadingond line"` with the cursor collapsed at offset 20
(the end of the placeholder); the rest of the line follows the placeholder
instead of being reused as the heading content. -/
theorem heading_insertion_placeholder_result :
    (insertHeading 2 ("Notes:\nsecond line".toList) 10 10).doc =
      "Notes:\n## secHeadingond line".toList ∧
    (insertHeading 2 ("Notes:\nsecond line".toList) 10 10).selStart = 20 ∧
    (insertHeading 2 ("Notes:\nsecond line".toList) 10 10).selEnd = 20 := by
  decide

/-- Counterexample to claim C5: unordered list insertion on `"abc"` with the
cursor at offset 1 yields `"\n- bc"` — the character `"a"` between the line
start and the cursor is deleted, not left unchanged as the claim states. -/
theorem list_insertion_drops_leading_text :
    (insertList false ("abc".toList) 1).doc = "\n- bc".toList ∧
    (insertList false ("abc".toList) 1).doc ≠ "a\n- bc".toList := by
  decide

/-- Amended claim C5: for every Document and cursor position `s ≤ length T`,
list insertion keeps the text before the current line's start as a prefix
and the text from the cursor to the end of the document as a suffix, and
inserts `"\n"` plus the `"- "` / `"1. "` marker between them — the text
between the line start and the cursor is deleted (its `s - lineStart`
characters are missing from the new length), and the cursor lands at the
end of the new document. -/
theorem list_insertion_result (ordered : Bool) (T : List Char) (s : Nat)
    (h : s ≤ T.length) :
    (T.take (lineStartIdx (T.take s)) <+: (insertList ordered T s).doc) ∧
    (T.drop s <:+ (insertList ordered T s).doc) ∧
    (insertList ordered T s).doc.length =
      lineStartIdx (T.take s) + 1 + (if ordered then 3 else 2) + (T.length - s) ∧
    (insertList ordered T s).selStart = (insertList ordered T s).doc.length ∧
    (insertList ordered T s).selEnd = (insertList ordered T s).doc.length := by
  have hls := lineStartIdx_take_le (T := T) s
  simp only [insertList]
  refine ⟨⟨_, rfl⟩, ?_, ?_, ?_, ?_⟩
  · refine ⟨T.take (lineStartIdx (T.take s)) ++
      ('\n' :: (if ordered then "1. ".toList else "- ".toList)), ?_⟩
    simp [List.append_assoc]
  · cases ordered <;>
      simp [List.length_append, List.length_take, List.length_drop] <;> omega
  · cases ordered <;>
      simp [List.length_append, List.length_take, List.length_drop] <;> omega
  · cases ordered <;>
      simp [List.length_append, List.length_take, List.length_drop] <;> omega

/-- Witness for the amended C5 at `T = "ab\ncd"`, `s = 4`, ordered list. -/
theorem list_insertion_result_witness :
    ((4 : Nat) ≤ ("ab\ncd".toList).length) ∧
    (("ab\ncd".toList).take (lineStartIdx (("ab\ncd".toList).take 4)) <+:
        (insertList true ("ab\ncd".toList) 4).doc ∧
     ("ab\ncd".toList).drop 4 <:+ (insertList true ("ab\ncd".toList) 4).doc ∧
     (insertList true ("ab\ncd".toList) 4).doc.length =
       lineStartIdx (("ab\ncd".toList).take 4) + 1 + 3 + (("ab\ncd".toList).length - 4) ∧
     (insertList true ("ab\ncd".toList) 4).selStart =
       (insertList true ("ab\ncd".toList) 4).doc.length ∧
     (insertList true ("ab\ncd".toList) 4).selEnd =
       (insertList true ("ab\ncd".toList) 4).doc.length) :=
  ⟨by decide, list_insertion_result true ("ab\ncd".toList) 4 (by decide)⟩

/-- Counterexample to claim C6: with no textarea, quote insertion replaces
the Document `"x"` with the fixed snippet `"\n> Quote\n"` (the prior content
is not a prefix of the result — it is gone entirely), and heading insertion
prepends the marker (`"## x"`), again not an append-at-end. -/
theorem no_widget_not_append :
    insertQuoteNoWidget ("x".toList) = "\n> Quote\n".toList ∧
    ¬ ("x".toList <+: insertQuoteNoWidget ("x".toList)) ∧
    insertHeadingNoWidget 2 ("x".toList) = "## x".toList ∧
    ¬ ("x".toList <+: insertHeadingNoWidget 2 ("x".toList)) := by
  decide

/-- Amended claim C6: when no textarea is available, every operation is
total (never throws) but only wrap-selection, insert-at-cursor and link
insertion append at the end of the Document (prior content a prefix of the
result); heading insertion prepends its marker (prior content a suffix),
and list, quote and code-block insertion replace the Document with a fixed
snippet independent of the prior content. -/
theorem no_widget_fallback (before after ph snippet T : List Char)
    (level : Nat) (ordered : Bool) :
    (T <+: wrapSelectionNoWidget before after ph T) ∧
    (T <+: insertAtCursorNoWidget snippet T) ∧
    (T <+: insertLinkNoWidget T) ∧
    (T <:+ insertHeadingNoWidget level T) ∧
    (insertListNoWidget ordered T = insertListNoWidget ordered []) ∧
    (insertQuoteNoWidget T = "\n> Quote\n".toList) ∧
    (insertCodeBlockNoWidget T = "\n\n```\ncode\n```\n\n".toList) := by
  refine ⟨⟨before ++ ph ++ after, ?_⟩, ⟨snippet, rfl⟩,
    ⟨"[link text](https://example.com)".toList, rfl⟩,
    ⟨List.replicate level '#' ++ [' '], ?_⟩, ?_, rfl, rfl⟩
  · simp [wrapSelectionNoWidget, List.append_assoc]
  · simp [insertHeadingNoWidget, List.append_assoc]
  · cases ordered <;> rfl

lemma mem_of_getLast?_eq {l : List Char} {a : Char} (h : l.getLast? = some a) : a ∈ l := by
  rcases List.mem_getLast?_eq_getLast (by simpa using h) with ⟨hne, rfl⟩
  exact List.getLast_mem hne

lemma slashActiveB_iff (ll : List Char) :
    slashActiveB ll = true ↔ (ll.head? = some '/' ∧ ' ' ∉ ll) := by
  unfold slashActiveB
  simp only [Bool.or_eq_true, Bool.and_eq_true, beq_iff_eq, Bool.not_eq_true',
    beq_eq_false_iff_ne, ne_eq]
  constructor
  · intro h
    rcases h with h | ⟨⟨h1, h2⟩, h3⟩
    · subst h
      exact ⟨rfl, by decide⟩
    · refine ⟨h1, ?_⟩
      intro hmem
      have hc : ll.contains ' ' = true := by simpa using hmem
      rw [hc] at h2
      cases h2
  · rintro ⟨h1, h2⟩
    right
    refine ⟨⟨h1, ?_⟩, ?_⟩
    · rw [Bool.eq_false_iff]
      intro hc
      exact h2 (by simpa using hc)
    · intro hl
      exact h2 (mem_of_getLast?_eq hl)

lemma slashStateOf_iff (T : List Char) (c : Nat) (q : List Char) :
    slashStateOf T c = some q ↔
      (lastLineOf (T.take c) = '/' :: q ∧ ' ' ∉ q) := by
  simp only [slashStateOf]
  by_cases ha : slashActiveB (lastLineOf (T.take c)) = true
  · rw [if_pos ha]
    rcases (slashActiveB_iff _).mp ha with ⟨hh, hsp⟩
    cases hll : lastLineOf (T.take c) with
    | nil => rw [hll] at hh; simp at hh
    | cons a tl =>
      rw [hll] at hh hsp
      have haq : a = '/' := by simpa using hh
      subst haq
      constructor
      · intro hq
        have htq : tl = q := by simpa using hq
        subst htq
        exact ⟨rfl, fun hs => hsp (by simp [hs])⟩
      · rintro ⟨heq, hq⟩
        have htq : tl = q := by simpa using heq
        subst htq
        simp
  · rw [if_neg ha]
    constructor
    · intro h; simp at h
    · rintro ⟨heq, hsp⟩
      exfalso
      apply ha
      apply (slashActiveB_iff _).mpr
      constructor
      · simp [heq]
      · rw [heq]
        intro hs
        rcases List.mem_cons.mp hs with h | h
        · exact absurd h (by decide)
        · exact hsp h

/-- Claim C7: the slash palette is active with query `q` exactly when the
text from the start of the current line to the cursor is `/` followed by
`q` with no space; typing `/` at the start of an empty line activates it
with the empty query (which returns the full 13-command registry in
registry order), typing `/head` yields query `head` (filtering, under the
spec-modelled substring matcher, to exactly the three heading commands),
and typing a space after the `/` token deactivates the palette. -/
theorem slash_palette_activation :
    (∀ (T : List Char) (c : Nat) (q : List Char),
        slashStateOf T c = some q ↔
          (lastLineOf (T.take c) = '/' :: q ∧ ' ' ∉ q)) ∧
    (slashStateOf ("/".toList) 1 = some [] ∧
      filteredSlashCommands [] = slashCommands) ∧
    (slashStateOf ("/head".toList) 5 = some ("head".toList) ∧
      filteredSlashCommands ("head".toList) = slashCommands.take 3 ∧
      (slashCommands.take 3).map SlashCommandModel.title =
        [ "Heading 1".toList, "Heading 2".toList, "Heading 3".toList]) ∧
    slashStateOf ("/head ".toList) 6 = none := by
  refine ⟨slashStateOf_iff, ⟨by decide, rfl⟩, ⟨by decide, by decide, by decide⟩, by decide⟩

/-- Claim C8: rendering is deterministic — for any lexer function, sanitizer
availability, and two editor states that agree on the Document text and the
theme (but may differ in every other piece of component state: dialogs,
slash menu, toolbar, colors, ...), the rendered preview is identical; the
renderer reads nothing from the state besides its two inputs. -/
theorem render_deterministic (lexer : List Char → List BlockToken) (w : Bool)
    (s1 s2 : EditorState)
    (h1 : s1.localValue = s2.localValue) (h2 : s1.theme = s2.theme) :
    renderedMarkdown lexer s1 w = renderedMarkdown lexer s2 w := by
  unfold renderedMarkdown parsedTokens
  rw [h1, h2]

/-- A concrete editor state used by the C8 witness. -/
def egStateA : EditorState :=
  ⟨ "# hi".toList, some ("dark".toList), false, false, [], "auto".toList, [],
    [], [], [], "split".toList, false, "#000000".toList, false, [], (0, 0),
    false, (0, 0)⟩

/-- A second state with the same Document and theme but every other mutable
field different. -/
def egStateB : EditorState :=
  ⟨ "# hi".toList, some ("dark".toList), true, true, "x".toList, "jsx".toList,
    "u".toList, "9".toList, "9".toList, "a".toList, "edit".toList, true,
    "#ff0000".toList, true, "head".toList, (5, 7), true, (3, 4)⟩

/-- A tiny stand-in lexer used by the C8 witness. -/
def egLexer (l : List Char) : List BlockToken := [BlockToken.code [] l]

/-- Witness for C8: the two concrete states above agree on text and theme
and render identically. -/
theorem render_deterministic_witness :
    (egStateA.localValue = egStateB.localValue ∧ egStateA.theme = egStateB.theme) ∧
    renderedMarkdown egLexer egStateA true = renderedMarkdown egLexer egStateB true :=
  ⟨⟨rfl, rfl⟩, render_deterministic egLexer true egStateA egStateB rfl rfl⟩

/-- Claim C9: wrap-selection round-trip — for every text, valid selection
and wrap pair, slicing the wrapped document between the recorded boundaries
`s + length pre` and that plus the content length recovers exactly the
original selected substring (when `s < e`), or the operation's placeholder
word (when `s = e`). -/
theorem wrap_roundtrip (T pre suf ph : List Char) (s e : Nat)
    (h1 : s ≤ e) (h2 : e ≤ T.length) :
    (s < e →
      sliceL (wrapSelection pre suf ph T s e).doc (s + pre.length)
          (s + pre.length + (e - s)) = sliceL T s e) ∧
    (s = e →
      sliceL (wrapSelection pre suf ph T s e).doc (s + pre.length)
          (s + pre.length + ph.length) = ph) := by
  have hsl : (sliceL T s e).length = e - s := by
    simp [sliceL, List.length_drop, List.length_take]
    omega
  have hts : (T.take s).length = s := by
    simp [List.length_take]
    omega
  constructor
  · intro hlt
    have hne : sliceL T s e ≠ [] := by
      intro hnil
      rw [hnil] at hsl
      simp at hsl
      omega
    have hdoc : (wrapSelection pre suf ph T s e).doc
        = (T.take s ++ pre) ++ sliceL T s e ++ (suf ++ T.drop e) := by
      simp [wrapSelection, hne, List.append_assoc]
    rw [hdoc]
    have hlen : s + pre.length = (T.take s ++ pre).length := by
      simp [hts]
    rw [hlen, ← hsl]
    exact sliceL_append_middle _ _ _
  · intro heq
    have hnil : sliceL T s e = [] := by
      subst heq
      simp [sliceL]
    have hdoc : (wrapSelection pre suf ph T s e).doc
        = (T.take s ++ pre) ++ ph ++ (suf ++ T.drop e) := by
      simp [wrapSelection, hnil, List.append_assoc]
    rw [hdoc]
    have hlen : s + pre.length = (T.take s ++ pre).length := by
      simp [hts]
    rw [hlen]
    exact sliceL_append_middle _ _ _

/-- Witness for C9 at text `"hello"` with a nonempty selection `(1, 3)` and
an empty one `(2, 2)`, wrap pair `("**", "**")`, placeholder `"bold text"`. -/
theorem wrap_roundtrip_witness :
    ((1 : Nat) ≤ 3 ∧ 3 ≤ ("hello".toList).length ∧
     (2 : Nat) ≤ 2 ∧ 2 ≤ ("hello".toList).length) ∧
    ((1 : Nat) < 3 →
      sliceL (wrapSelection ("**".toList) ("**".toList) ("bold text".toList)
          ("hello".toList) 1 3).doc (1 + ("**".toList).length)
          (1 + ("**".toList).length + (3 - 1)) = sliceL ("hello".toList) 1 3) ∧
    ((2 : Nat) = 2 →
      sliceL (wrapSelection ("**".toList) ("**".toList) ("bold text".toList)
          ("hello".toList) 2 2).doc (2 + ("**".toList).length)
          (2 + ("**".toList).length + ("bold text".toList).length) =
        "bold text".toList) :=
  ⟨⟨by decide, by decide, by decide, by decide⟩,
   (wrap_roundtrip ("hello".toList) ("**".toList) ("**".toList)
      ("bold text".toList) 1 3 (by decide) (by decide)).1,
   (wrap_roundtrip ("hello".toList) ("**".toList) ("**".toList)
      ("bold text".toList) 2 2 (by decide) (by decide)).2⟩

/-- Claim C10: an inline image token whose `href` is empty (the falsy JS
check `!token.href`) renders as a React `null` (nothing is emitted for it),
while every other token of the same inline sequence is still rendered by
its own `renderInline` case — position for position. -/
theorem empty_image_renders_nothing (w : Bool) (toks : List InlineToken)
    (i : Nat) (alt : List Char)
    (h : toks[i]? = some (InlineToken.image [] alt)) :
    (renderInlineList w toks)[i]? = some Output.noneNode ∧
    ∀ (j : Nat) (t : InlineToken), toks[j]? = some t →
      (renderInlineList w toks)[j]? = some (renderInlineTok w t) := by
  have hm : renderInlineList w toks = toks.map (renderInlineTok w) :=
    renderInlineList_eq_map w toks
  constructor
  · rw [hm, List.getElem?_map, h]
    simp [renderInlineTok]
  · intro j t hj
    rw [hm, List.getElem?_map, hj]
    rfl

/-- Witness for C10: in `[br, image with empty href and alt "x", br]` the
middle token renders as nothing. -/
theorem empty_image_renders_nothing_witness :
    (([InlineToken.br, InlineToken.image [] ("x".toList), InlineToken.br])[1]? =
      some (InlineToken.image [] ("x".toList))) ∧
    (renderInlineList true
      [InlineToken.br, InlineToken.image [] ("x".toList), InlineToken.br])[1]? =
      some Output.noneNode :=
  ⟨rfl,
   (empty_image_renders_nothing true
      [InlineToken.br, InlineToken.image [] ("x".toList), InlineToken.br]
      1 ("x".toList) rfl).1⟩
